import Mathlib

/-!
Shallow embedding of the core of `src/nmap2csv.py`: the regular expression
`PORT_LINE_RE` and the function `parse_nmap_lines`.

Python strings are modelled as `List Char`.  The regex

  `^(?P<port>\d+)/(?:\s*)?(?P<proto>tcp|udp)\s+(?P<state>\S+)\s+(?P<service>\S+)(?:\s+(?P<version>.*\S))?\s*$`

(compiled with `re.IGNORECASE`) is deterministic after resolving the greedy
quantifiers: every greedy repetition is followed by a token disjoint from it,
so backtracking never changes the outcome, and the optional trailing group
succeeds exactly when the tail holds a non-whitespace character whose
whitespace-trimmed span is free of `'\n'` (the only character `.` refuses).
`PORT_LINE_RE_match` below is that determinised matcher.

`\s` (and `str.isspace`, which Python's `re` uses for the same class on `str`
patterns) is the Unicode whitespace set; `\d` and the `IGNORECASE` folding of
`tcp|udp` are modelled on their ASCII ranges, the only ones those literal
tokens can meet.
-/

namespace Nmap2csv

/-- Python's whitespace class: the characters for which `str.isspace()` holds,
which is also the class `\s` matches in a `str` pattern. -/
def pyIsSpace (c : Char) : Bool :=
  decide ((9 ≤ c.toNat ∧ c.toNat ≤ 13) ∨ c.toNat = 28 ∨ c.toNat = 29 ∨
    c.toNat = 30 ∨ c.toNat = 31 ∨ c.toNat = 32 ∨ c.toNat = 133 ∨
    c.toNat = 160 ∨ c.toNat = 5760 ∨ (8192 ≤ c.toNat ∧ c.toNat ≤ 8202) ∨
    c.toNat = 8232 ∨ c.toNat = 8233 ∨ c.toNat = 8239 ∨ c.toNat = 8287 ∨
    c.toNat = 12288)

/-- The class `\d`, on its ASCII range `0`-`9`. -/
def pyIsDigit (c : Char) : Bool :=
  decide (48 ≤ c.toNat ∧ c.toNat ≤ 57)

/-- Python `str.lower()` on the ASCII range (the only range the tokens this
program lowercases can meet with a different image). -/
def charLower (c : Char) : Char :=
  if 65 ≤ c.toNat ∧ c.toNat ≤ 90 then Char.ofNat (c.toNat + 32) else c

/-- Python `raw.rstrip("\n")`: drop every trailing `'\n'`. -/
def rstripNewlines (l : List Char) : List Char :=
  (l.reverse.dropWhile (fun c => c == '\n')).reverse

/-- Drop trailing whitespace (the effect of the regex's final `\s*$` on the
greedy `.*\S` capture). -/
def dropTrailingWs (l : List Char) : List Char :=
  (l.reverse.dropWhile pyIsSpace).reverse

/-- The alternation `tcp|udp` under `IGNORECASE`, tested on three characters. -/
def protoOK (a b c : Char) : Bool :=
  ((a == 't' || a == 'T') && (b == 'c' || b == 'C') && (c == 'p' || c == 'P')) ||
  ((a == 'u' || a == 'U') && (b == 'd' || b == 'D') && (c == 'p' || c == 'P'))

/-- Match `(?P<proto>tcp|udp)` (case-insensitive) at the head of the input,
returning the token verbatim and the rest. -/
def matchProtoCI : List Char → Option (List Char × List Char)
  | a :: b :: c :: rest =>
    if protoOK a b c then some ([a, b, c], rest) else none
  | _ => none

/-- Match the regex tail `(?:\s+(?P<version>.*\S))?\s*$` against the text that
follows the service token.  `some none` is a match with the group absent,
`some (some v)` a match capturing `v`, `none` no match (which makes the whole
regex fail).  The group is present exactly when the tail holds a
non-whitespace character; its capture is the tail trimmed of surrounding
whitespace, and the match fails if that capture spans a `'\n'`, which `.`
cannot cross. -/
def matchTail (r : List Char) : Option (Option (List Char)) :=
  let ws := r.takeWhile pyIsSpace
  let body := r.dropWhile pyIsSpace
  if body.isEmpty then some none
  else if ws.isEmpty then none
  else
    let v := dropTrailingWs body
    if v.contains '\n' then none else some (some v)

/-- The named groups of a successful `PORT_LINE_RE` match. -/
structure PortMatch where
  port : List Char
  proto : List Char
  state : List Char
  service : List Char
  version : Option (List Char)
deriving DecidableEq, Repr

/-- The call `PORT_LINE_RE.match(line)`: the determinised matcher for
`^(?P<port>\d+)/(?:\s*)?(?P<proto>tcp|udp)\s+(?P<state>\S+)\s+(?P<service>\S+)(?:\s+(?P<version>.*\S))?\s*$`
with `IGNORECASE`. -/
def PORT_LINE_RE_match (line : List Char) : Option PortMatch :=
  let port := line.takeWhile pyIsDigit
  match line.dropWhile pyIsDigit with
  | '/' :: r2 =>
    if port.isEmpty then none
    else
      match matchProtoCI (r2.dropWhile pyIsSpace) with
      | some (proto, r4) =>
        let ws1 := r4.takeWhile pyIsSpace
        let r5 := r4.dropWhile pyIsSpace
        let state := r5.takeWhile (fun c => !pyIsSpace c)
        let r6 := r5.dropWhile (fun c => !pyIsSpace c)
        let ws2 := r6.takeWhile pyIsSpace
        let r7 := r6.dropWhile pyIsSpace
        let service := r7.takeWhile (fun c => !pyIsSpace c)
        let r8 := r7.dropWhile (fun c => !pyIsSpace c)
        if ws1.isEmpty || state.isEmpty || ws2.isEmpty || service.isEmpty then none
        else (matchTail r8).map (fun v =>
          { port := port, proto := proto, state := state, service := service,
            version := v })
      | none => none
  | _ => none

/-- One output record: the dict the Python loop appends to `rows`. -/
structure Row where
  Enum : String
  Port : String
  Protocol : String
  State : String
  Service : String
  Version : String
  Hypothesis : String
  Notes : String
  Loot : String
deriving DecidableEq, Repr

/-- The test `state.lower().startswith("open")`. -/
def stateIsOpen (state : List Char) : Bool :=
  List.isPrefixOf ['o', 'p', 'e', 'n'] (state.map charLower)

/-- The record built from a successful match (the dict literal in the source,
with `proto.lower()` already applied to the protocol group and
`m.group("version") or ""` to the version group). -/
def mkRow (m : PortMatch) : Row :=
  { Enum := "N",
    Port := m.port.asString,
    Protocol := (m.proto.map charLower).asString,
    State := m.state.asString,
    Service := m.service.asString,
    Version := (m.version.getD []).asString,
    Hypothesis := "",
    Notes := "",
    Loot := "" }

/-- The body of the `for raw in lines` loop: `line = raw.rstrip("\n")`; skip
empty lines and lines whose first character is whitespace; match
`PORT_LINE_RE`; apply the `only_open` state filter; build the record. -/
def parseLine (only_open : Bool) (raw : List Char) : Option Row :=
  match rstripNewlines raw with
  | [] => none
  | c :: rest =>
    if pyIsSpace c then none
    else
      match PORT_LINE_RE_match (c :: rest) with
      | none => none
      | some m =>
        if only_open && !stateIsOpen m.state then none
        else some (mkRow m)

/-- The function `parse_nmap_lines(lines, only_open)`: run the loop body over the input
lines, appending each produced record in order. -/
def parse_nmap_lines (lines : List (List Char)) (only_open : Bool) : List Row :=
  lines.filterMap (parseLine only_open)

/-! ### Character-class facts -/

theorem pyIsSpace_false_of_digit {c : Char} (h : pyIsDigit c = true) :
    pyIsSpace c = false := by
  simp only [pyIsDigit, decide_eq_true_eq] at h
  simp only [pyIsSpace, decide_eq_false_iff_not]
  omega

theorem pyIsSpace_false_of_protoOK {a b c : Char} (h : protoOK a b c = true) :
    pyIsSpace a = false := by
  simp only [protoOK, Bool.or_eq_true, Bool.and_eq_true, beq_iff_eq] at h
  rcases h with ⟨⟨ha | ha, -⟩, -⟩ | ⟨⟨ha | ha, -⟩, -⟩ <;> subst ha <;> decide

theorem ne_newline_of_not_space {c : Char} (h : pyIsSpace c = false) :
    c ≠ '\n' := by
  intro hc
  subst hc
  simp [pyIsSpace] at h

/-! ### Reverse / dropWhile decompositions -/

theorem reverse_dropWhile_decomp (p : Char → Bool) (A : List Char) :
    ∃ t, A = (A.reverse.dropWhile p).reverse ++ t ∧ t.all p = true := by
  refine ⟨(A.reverse.takeWhile p).reverse, ?_, by simp⟩
  conv_lhs => rw [← List.reverse_reverse A,
    ← List.takeWhile_append_dropWhile p A.reverse]
  rw [List.reverse_append]

theorem dropWhile_head_false {p : Char → Bool} {l : List Char} {x : Char}
    {xs : List Char} (h : l.dropWhile p = x :: xs) : p x = false := by
  have hh := List.head?_dropWhile_not p l
  rw [h] at hh
  simpa using hh

theorem dropTrailingWs_ne_nil {l : List Char} {x : Char} {xs : List Char}
    (hl : l = x :: xs) (hx : pyIsSpace x = false) : dropTrailingWs l ≠ [] := by
  subst hl
  intro hnil
  unfold dropTrailingWs at hnil
  rw [List.reverse_eq_nil_iff] at hnil
  rw [List.dropWhile_eq_nil_iff] at hnil
  have hx' := hnil x (by simp)
  rw [hx'] at hx
  cases hx

theorem dropTrailingWs_getLast {l : List Char} (hne : dropTrailingWs l ≠ []) :
    pyIsSpace ((dropTrailingWs l).getLastD ' ') = false := by
  rw [List.getLastD_eq_getLast?]
  unfold dropTrailingWs at hne ⊢
  rw [List.getLast?_reverse]
  cases hdrop : l.reverse.dropWhile pyIsSpace with
  | nil => rw [hdrop] at hne; exact absurd rfl hne
  | cons x xs =>
    have hx := dropWhile_head_false hdrop
    simpa using hx

/-! ### Decomposing a successful match -/

theorem matchProtoCI_some {l p rest : List Char}
    (h : matchProtoCI l = some (p, rest)) :
    l = p ++ rest ∧ ∃ a b c, p = [a, b, c] ∧ protoOK a b c = true := by
  match l with
  | [] => simp [matchProtoCI] at h
  | [a] => simp [matchProtoCI] at h
  | [a, b] => simp [matchProtoCI] at h
  | a :: b :: c :: r =>
    simp only [matchProtoCI] at h
    split at h
    · rename_i hOK
      obtain ⟨hp, hrest⟩ := Prod.mk.injEq .. ▸ (Option.some.injEq .. ▸ h)
      exact ⟨by rw [← hp, ← hrest]; rfl, a, b, c, hp.symm, hOK⟩
    · cases h

theorem matchTail_eq_some_some {r v : List Char}
    (h : matchTail r = some (some v)) :
    ∃ ws tws, r = ws ++ (v ++ tws) ∧ ws ≠ [] ∧ ws.all pyIsSpace = true ∧
      tws.all pyIsSpace = true ∧ v ≠ [] ∧
      pyIsSpace (v.getLastD ' ') = false := by
  simp only [matchTail] at h
  split at h
  · simp at h
  · split at h
    · cases h
    · split at h
      · cases h
      · rename_i hbody hws _
        have hv : v = dropTrailingWs (r.dropWhile pyIsSpace) := by
          have := Option.some.injEq .. ▸ h
          exact (Option.some.injEq .. ▸ this).symm
        obtain ⟨tws, hdec, htws⟩ :=
          reverse_dropWhile_decomp pyIsSpace (r.dropWhile pyIsSpace)
        have hbody' : r.dropWhile pyIsSpace ≠ [] := by
          intro hnil; rw [hnil] at hbody; exact hbody rfl
        obtain ⟨x, xs, hxxs⟩ := List.exists_cons_of_ne_nil hbody'
        have hx : pyIsSpace x = false := dropWhile_head_false hxxs
        have hvne : v ≠ [] := by
          rw [hv]; exact dropTrailingWs_ne_nil hxxs hx
        refine ⟨r.takeWhile pyIsSpace, tws, ?_, ?_, List.all_takeWhile, htws,
          hvne, ?_⟩
        · conv_lhs => rw [← List.takeWhile_append_dropWhile pyIsSpace r]
          rw [hv]
          unfold dropTrailingWs
          rw [← hdec]
        · intro hnil
          rw [hnil] at hws
          exact hws rfl
        · rw [hv]
          exact dropTrailingWs_getLast (hv ▸ hvne)

theorem PORT_LINE_RE_match_some_decomp {line : List Char} {m : PortMatch}
    (h : PORT_LINE_RE_match line = some m) :
    ∃ ws0 ws1 ws2 r8,
      line = m.port ++ '/' ::
        (ws0 ++ (m.proto ++ (ws1 ++ (m.state ++ (ws2 ++ (m.service ++ r8)))))) ∧
      m.port ≠ [] ∧ m.port.all pyIsDigit = true ∧
      ws0.all pyIsSpace = true ∧
      (∃ a b c, m.proto = [a, b, c] ∧ protoOK a b c = true) ∧
      ws1 ≠ [] ∧ ws1.all pyIsSpace = true ∧
      m.state ≠ [] ∧ m.state.all (fun ch => !pyIsSpace ch) = true ∧
      ws2 ≠ [] ∧ ws2.all pyIsSpace = true ∧
      m.service ≠ [] ∧ m.service.all (fun ch => !pyIsSpace ch) = true ∧
      matchTail r8 = some m.version := by
  simp only [PORT_LINE_RE_match] at h
  split at h
  case _ r2 heq =>
    split at h
    · cases h
    case _ hport =>
      split at h
      case _ proto r4 hproto =>
        split at h
        · cases h
        case _ hcond =>
          rw [Option.map_eq_some'] at h
          obtain ⟨v, hv, hm⟩ := h
          obtain ⟨hr3, a, b, c, hpshape, hpOK⟩ := matchProtoCI_some hproto
          simp only [Bool.or_eq_true, List.isEmpty_iff, not_or] at hcond
          obtain ⟨⟨⟨hw1, hstate⟩, hw2⟩, hservice⟩ := hcond
          subst hm
          refine ⟨r2.takeWhile pyIsSpace,
            (r4.takeWhile pyIsSpace),
            ((r4.dropWhile pyIsSpace).dropWhile
              (fun ch => !pyIsSpace ch)).takeWhile pyIsSpace,
            (((r4.dropWhile pyIsSpace).dropWhile
              (fun ch => !pyIsSpace ch)).dropWhile pyIsSpace).dropWhile
              (fun ch => !pyIsSpace ch),
            ?_, ?_, List.all_takeWhile, List.all_takeWhile,
            ⟨a, b, c, hpshape, hpOK⟩, hw1, List.all_takeWhile,
            hstate, List.all_takeWhile, hw2, List.all_takeWhile,
            hservice, List.all_takeWhile, hv⟩
          · conv_lhs => rw [← List.takeWhile_append_dropWhile pyIsDigit line]
            rw [heq]
            congr 1
            congr 1
            conv_lhs => rw [← List.takeWhile_append_dropWhile pyIsSpace r2]
            congr 1
            rw [hr3]
            congr 1
            conv_lhs => rw [← List.takeWhile_append_dropWhile pyIsSpace r4]
            congr 1
            conv_lhs => rw [← List.takeWhile_append_dropWhile
              (fun ch => !pyIsSpace ch) (r4.dropWhile pyIsSpace)]
            congr 1
            conv_lhs => rw [← List.takeWhile_append_dropWhile pyIsSpace
              ((r4.dropWhile pyIsSpace).dropWhile (fun ch => !pyIsSpace ch))]
            congr 1
            conv_lhs => rw [← List.takeWhile_append_dropWhile
              (fun ch => !pyIsSpace ch)
              (((r4.dropWhile pyIsSpace).dropWhile
                (fun ch => !pyIsSpace ch)).dropWhile pyIsSpace)]
          · show line.takeWhile pyIsDigit ≠ []
            simpa [List.isEmpty_iff] using hport
      · cases h
  · cases h

/-! ### Facts about `parseLine` and `parse_nmap_lines` -/

theorem rstripNewlines_decomp (raw : List Char) :
    ∃ t, raw = rstripNewlines raw ++ t ∧
      t.all (fun c => c == '\n') = true :=
  reverse_dropWhile_decomp (fun c => c == '\n') raw

theorem parseLine_some_elim {flag : Bool} {raw : List Char} {row : Row}
    (h : parseLine flag raw = some row) :
    ∃ m, PORT_LINE_RE_match (rstripNewlines raw) = some m ∧ row = mkRow m ∧
      (flag = true → stateIsOpen m.state = true) := by
  unfold parseLine at h
  split at h
  · cases h
  case _ c rest hr =>
    rw [hr]
    split at h
    · cases h
    · split at h
      · cases h
      case _ m hm =>
        split at h
        · cases h
        case _ hopen =>
          refine ⟨m, hm, (Option.some.injEq .. ▸ h).symm, ?_⟩
          intro hflag
          subst hflag
          simpa using hopen

theorem parseLine_some_head {flag : Bool} {raw : List Char} {row : Row}
    (h : parseLine flag raw = some row) :
    ∃ c rest, raw = c :: rest ∧ pyIsSpace c = false := by
  unfold parseLine at h
  split at h
  · cases h
  case _ c rest hr =>
    split at h
    · cases h
    case _ hc =>
      obtain ⟨t, hdec, -⟩ := rstripNewlines_decomp raw
      rw [hr] at hdec
      exact ⟨c, rest ++ t, by simpa using hdec, by simpa using hc⟩

theorem parseLine_true_eq_filter (raw : List Char) :
    parseLine true raw =
      (parseLine false raw).filter (fun r => stateIsOpen r.State.data) := by
  unfold parseLine
  split
  · rfl
  case _ c rest hr =>
    split
    · rfl
    · split
      · rfl
      case _ m hm =>
        have hdata : (mkRow m).State.data = m.state := rfl
        simp only [Bool.true_and, Bool.false_and, Bool.not_eq_true',
          if_neg Bool.false_ne_true, Option.filter, hdata]
        cases hst : stateIsOpen m.state <;> simp [hst]

theorem parse_nmap_lines_true_eq_filter (lines : List (List Char)) :
    parse_nmap_lines lines true =
      (parse_nmap_lines lines false).filter
        (fun r => stateIsOpen r.State.data) := by
  induction lines with
  | nil => rfl
  | cons raw t ih =>
    simp only [parse_nmap_lines, List.filterMap_cons] at ih ⊢
    rw [parseLine_true_eq_filter raw]
    cases hf : parseLine false raw with
    | none => simpa [Option.filter] using ih
    | some r =>
      cases hst : stateIsOpen r.State.data with
      | true => simp [Option.filter, hst, List.filter_cons, ih]
      | false => simp [Option.filter, hst, List.filter_cons, ih]

theorem length_filterMap_le_countP {α β : Type} (f : α → Option β)
    (p : α → Bool) (hf : ∀ a, (f a).isSome = true → p a = true)
    (l : List α) : (l.filterMap f).length ≤ l.countP p := by
  induction l with
  | nil => simp
  | cons a t ih =>
    cases hfa : f a with
    | none =>
      simp only [List.filterMap_cons, hfa, List.countP_cons]
      have : (List.filterMap f t).length ≤ t.countP p := ih
      split <;> omega
    | some b =>
      have hpa : p a = true := hf a (by rw [hfa]; rfl)
      simp only [List.filterMap_cons, hfa, List.countP_cons, if_pos hpa,
        List.length_cons]
      omega

/-! ### Evaluating the matcher on a line with no service token -/

theorem rstripNewlines_append {A B : List Char}
    (h : A.getLast? ≠ some '\n') :
    rstripNewlines (A ++ B) = A ++ rstripNewlines B := by
  unfold rstripNewlines
  rw [List.reverse_append, List.dropWhile_append]
  split
  case isTrue hemp =>
    rw [List.isEmpty_iff] at hemp
    rw [hemp]
    cases hA : A.reverse with
    | nil =>
      rw [List.reverse_eq_nil_iff] at hA
      subst hA
      simp
    | cons x xs =>
      have hx : x ≠ '\n' := by
        intro hxe
        subst hxe
        have : A.reverse.head? = some '\n' := by rw [hA]; rfl
        rw [List.head?_reverse] at this
        exact h this
      rw [List.dropWhile_cons_of_neg (by simpa using hx), ← hA,
        List.reverse_reverse]
      simp
  case isFalse =>
    rw [List.reverse_append, List.reverse_reverse]

theorem all_rstripNewlines {B : List Char} (h : B.all pyIsSpace = true) :
    (rstripNewlines B).all pyIsSpace = true := by
  rw [List.all_eq_true] at h ⊢
  intro x hx
  apply h
  unfold rstripNewlines at hx
  rw [List.mem_reverse] at hx
  have := List.dropWhile_subset (l := B.reverse) (fun c => c == '\n') hx
  rw [List.mem_reverse] at this
  exact this

theorem PORT_LINE_RE_match_no_service
    {digits ws0 proto ws1 state ws2 : List Char} {a b c : Char}
    (hdne : digits ≠ []) (hda : digits.all pyIsDigit = true)
    (hw0 : ws0.all pyIsSpace = true)
    (hp : proto = [a, b, c]) (hpOK : protoOK a b c = true)
    (hw1a : ws1.all pyIsSpace = true)
    (hsne : state ≠ []) (hsa : state.all (fun ch => !pyIsSpace ch) = true)
    (hw2 : ws2.all pyIsSpace = true) :
    PORT_LINE_RE_match
      (digits ++ '/' :: (ws0 ++ (proto ++ (ws1 ++ (state ++ ws2))))) = none := by
  subst hp
  obtain ⟨s, st, hst⟩ := List.exists_cons_of_ne_nil hsne
  have hsns : pyIsSpace s = false := by
    rw [List.all_eq_true] at hsa
    have := hsa s (by rw [hst]; exact List.mem_cons_self ..)
    simpa using this
  have hans : pyIsSpace a = false := pyIsSpace_false_of_protoOK hpOK
  have hdw : (digits ++ '/' ::
      (ws0 ++ ([a, b, c] ++ (ws1 ++ (state ++ ws2))))).dropWhile pyIsDigit =
      '/' :: (ws0 ++ ([a, b, c] ++ (ws1 ++ (state ++ ws2)))) := by
    rw [List.dropWhile_append_of_pos (by simpa [List.all_eq_true] using hda)]
    exact List.dropWhile_cons_of_neg (by decide)
  have htw : (digits ++ '/' ::
      (ws0 ++ ([a, b, c] ++ (ws1 ++ (state ++ ws2))))).takeWhile pyIsDigit =
      digits := by
    rw [List.takeWhile_append_of_pos (by simpa [List.all_eq_true] using hda)]
    rw [List.takeWhile_cons_of_neg (by decide), List.append_nil]
  have hr3 : (ws0 ++ ([a, b, c] ++ (ws1 ++ (state ++ ws2)))).dropWhile
      pyIsSpace = a :: (b :: (c :: (ws1 ++ (state ++ ws2)))) := by
    rw [List.dropWhile_append_of_pos (by simpa [List.all_eq_true] using hw0)]
    exact List.dropWhile_cons_of_neg (by simp [hans])
  have hr5 : (ws1 ++ (state ++ ws2)).dropWhile pyIsSpace = state ++ ws2 := by
    rw [List.dropWhile_append_of_pos (by simpa [List.all_eq_true] using hw1a)]
    rw [hst]
    exact List.dropWhile_cons_of_neg (by simp [hsns])
  have hr6 : (state ++ ws2).dropWhile (fun ch => !pyIsSpace ch) = ws2 := by
    rw [List.dropWhile_append_of_pos
      (by simpa [List.all_eq_true] using hsa)]
    cases ws2 with
    | nil => rfl
    | cons w t =>
      have hw : pyIsSpace w = true := by
        rw [List.all_eq_true] at hw2
        exact hw2 w (List.mem_cons_self ..)
      exact List.dropWhile_cons_of_neg (by simp [hw])
  have hr7 : ws2.dropWhile pyIsSpace = [] := by
    rw [List.dropWhile_eq_nil_iff]
    intro x hx
    rw [List.all_eq_true] at hw2
    exact hw2 x hx
  simp only [PORT_LINE_RE_match, hdw, htw, hr3]
  rw [if_neg (by simpa [List.isEmpty_iff] using hdne)]
  simp only [matchProtoCI, if_pos hpOK, hr5, hr6, hr7]
  rw [if_pos]
  rw [List.takeWhile_nil, List.isEmpty_nil]
  simp

theorem data_asString (l : List Char) : l.asString.data = l := rfl

theorem parseLine_eval {flag : Bool} {raw : List Char} {m : PortMatch}
    (hm : PORT_LINE_RE_match (rstripNewlines raw) = some m) :
    parseLine flag raw =
      if flag && !stateIsOpen m.state then none else some (mkRow m) := by
  unfold parseLine
  split
  case _ h0 =>
    rw [h0] at hm
    rw [show PORT_LINE_RE_match ([] : List Char) = none from rfl] at hm
    cases hm
  case _ c rest hcr =>
    rw [hcr] at hm
    obtain ⟨ws0, ws1, ws2, r8, hline, hpne, hpall, -⟩ :=
      PORT_LINE_RE_match_some_decomp hm
    obtain ⟨d, ds, hds⟩ := List.exists_cons_of_ne_nil hpne
    have hcd : c = d := by
      rw [hds] at hline
      exact (List.cons.injEq .. ▸ hline).1
    have hdd : pyIsDigit d = true := by
      rw [List.all_eq_true] at hpall
      have := hpall d (by rw [hds]; exact List.mem_cons_self ..)
      simpa using this
    have hcs : pyIsSpace c = false := by
      rw [hcd]
      exact pyIsSpace_false_of_digit hdd
    rw [if_neg (by simp [hcs])]
    simp only [hm]

/-! ### The claims -/

/-- C1, as stated, is false: the record emitted for the line
"80/tcp open http" has its enum-marker field equal to "N", not "". -/
theorem claim_C1_counterexample :
    ¬ ∀ r ∈ parse_nmap_lines ["80/tcp open http".data] true,
        r.Hypothesis = "" ∧ r.Notes = "" ∧ r.Loot = "" ∧ r.Enum = "" := by
  decide

/-- C1 (amended): for every input line sequence and every flag value, every
record emitted by parse_nmap_lines has its hypothesis, notes and loot fields
equal to the empty string, and its enum-marker field equal to the constant
"N"; the core never populates the annotation fields with parsed content. -/
theorem claim_C1 :
    ∀ (lines : List (List Char)) (only_open : Bool),
      ∀ r ∈ parse_nmap_lines lines only_open,
        r.Hypothesis = "" ∧ r.Notes = "" ∧ r.Loot = "" ∧ r.Enum = "N" := by
  intro lines flag r hr
  rw [parse_nmap_lines, List.mem_filterMap] at hr
  obtain ⟨raw, -, hp⟩ := hr
  obtain ⟨m, -, hrow, -⟩ := parseLine_some_elim hp
  subst hrow
  exact ⟨rfl, rfl, rfl, rfl⟩

/-- Witness for C1 at the concrete line "80/tcp open http". -/
theorem claim_C1_witness :
    ({ Enum := "N", Port := "80", Protocol := "tcp", State := "open",
       Service := "http", Version := "", Hypothesis := "", Notes := "",
       Loot := "" } : Row).Hypothesis = "" ∧
    ({ Enum := "N", Port := "80", Protocol := "tcp", State := "open",
       Service := "http", Version := "", Hypothesis := "", Notes := "",
       Loot := "" } : Row).Notes = "" ∧
    ({ Enum := "N", Port := "80", Protocol := "tcp", State := "open",
       Service := "http", Version := "", Hypothesis := "", Notes := "",
       Loot := "" } : Row).Loot = "" ∧
    ({ Enum := "N", Port := "80", Protocol := "tcp", State := "open",
       Service := "http", Version := "", Hypothesis := "", Notes := "",
       Loot := "" } : Row).Enum = "N" :=
  claim_C1 ["80/tcp open http".data] true
    { Enum := "N", Port := "80", Protocol := "tcp", State := "open",
      Service := "http", Version := "", Hypothesis := "", Notes := "",
      Loot := "" } (by decide)

/-- C2: the single input line "80/tcp   open  http    Apache httpd 2.4.41"
yields, for either flag value, exactly one record with port "80", protocol
"tcp", state "open", service "http" and version "Apache httpd 2.4.41". -/
theorem claim_C2 :
    parse_nmap_lines ["80/tcp   open  http    Apache httpd 2.4.41".data]
        true =
      [{ Enum := "N", Port := "80", Protocol := "tcp", State := "open",
         Service := "http", Version := "Apache httpd 2.4.41",
         Hypothesis := "", Notes := "", Loot := "" }] ∧
    parse_nmap_lines ["80/tcp   open  http    Apache httpd 2.4.41".data]
        false =
      [{ Enum := "N", Port := "80", Protocol := "tcp", State := "open",
         Service := "http", Version := "Apache httpd 2.4.41",
         Hypothesis := "", Notes := "", Loot := "" }] := by
  constructor
  · decide
  · decide

/-- C5: for every input line sequence and flag value, the number of emitted
records is at most the number of input lines that are non-empty and whose
first character is not whitespace. -/
theorem claim_C5 :
    ∀ (lines : List (List Char)) (only_open : Bool),
      (parse_nmap_lines lines only_open).length ≤
        lines.countP (fun raw => !raw.isEmpty &&
          !pyIsSpace (raw.headD ' ')) := by
  intro lines flag
  refine length_filterMap_le_countP _ _ ?_ lines
  intro raw hs
  rw [Option.isSome_iff_exists] at hs
  obtain ⟨row, hrow⟩ := hs
  obtain ⟨c, rest, hr, hc⟩ := parseLine_some_head hrow
  subst hr
  simp [hc]

/-- C6: every record produced with onlyOpen = true also occurs in the record
sequence produced with onlyOpen = false on the same input. -/
theorem claim_C6 :
    ∀ (lines : List (List Char)) (r : Row),
      r ∈ parse_nmap_lines lines true → r ∈ parse_nmap_lines lines false := by
  intro lines r hr
  rw [parse_nmap_lines_true_eq_filter] at hr
  exact List.mem_of_mem_filter hr

/-- Witness for C6 at the concrete line "80/tcp open http". -/
theorem claim_C6_witness :
    ({ Enum := "N", Port := "80", Protocol := "tcp", State := "open",
       Service := "http", Version := "", Hypothesis := "", Notes := "",
       Loot := "" } : Row) ∈
      parse_nmap_lines ["80/tcp open http".data] false :=
  claim_C6 ["80/tcp open http".data]
    { Enum := "N", Port := "80", Protocol := "tcp", State := "open",
      Service := "http", Version := "", Hypothesis := "", Notes := "",
      Loot := "" } (by decide)

/-- C10: the record sequence for onlyOpen = true is exactly the onlyOpen =
false sequence filtered by "state, lowercased, starts with 'open'"; the flag
changes nothing else about any emitted record. -/
theorem claim_C10 :
    ∀ lines : List (List Char),
      parse_nmap_lines lines true =
        (parse_nmap_lines lines false).filter
          (fun r => stateIsOpen r.State.data) :=
  parse_nmap_lines_true_eq_filter

/-- C3: with onlyOpen true, a line on which the pattern matches produces a
record exactly when its state token, lowercased, begins with "open"; in
particular "open|filtered" is retained while "closed", "filtered" and
"closed|filtered" are rejected. -/
theorem claim_C3 :
    (∀ (raw : List Char) (m : PortMatch),
        PORT_LINE_RE_match (rstripNewlines raw) = some m →
        (parseLine true raw).isSome = stateIsOpen m.state) ∧
    parse_nmap_lines ["53/udp open|filtered domain".data] true =
      [{ Enum := "N", Port := "53", Protocol := "udp",
         State := "open|filtered", Service := "domain", Version := "",
         Hypothesis := "", Notes := "", Loot := "" }] ∧
    parse_nmap_lines ["53/tcp closed domain".data] true = [] ∧
    parse_nmap_lines ["53/tcp filtered domain".data] true = [] ∧
    parse_nmap_lines ["53/tcp closed|filtered domain".data] true = [] := by
  refine ⟨?_, by decide, by decide, by decide, by decide⟩
  intro raw m hm
  rw [parseLine_eval hm]
  cases hst : stateIsOpen m.state <;> simp [hst]

/-- Witness for C3 at the concrete line "53/udp open|filtered domain". -/
theorem claim_C3_witness :
    (parseLine true "53/udp open|filtered domain".data).isSome =
      stateIsOpen ['o', 'p', 'e', 'n', '|', 'f', 'i', 'l', 't', 'e', 'r',
        'e', 'd'] :=
  claim_C3.1 "53/udp open|filtered domain".data
    { port := ['5', '3'], proto := ['u', 'd', 'p'],
      state := ['o', 'p', 'e', 'n', '|', 'f', 'i', 'l', 't', 'e', 'r',
        'e', 'd'],
      service := ['d', 'o', 'm', 'a', 'i', 'n'], version := none }
    (by decide)

/-- C4: the emitted version field is the trailing free text of the line,
captured whole as one contiguous span reaching the end of the line up to
trailing whitespace, with its last character non-whitespace (trailing
whitespace trimmed); it is the empty string when the optional group is
absent, as on "22/tcp open ssh"; internal whitespace is preserved, as on
"3306/tcp open mysql MySQL 5.5 or later". -/
theorem claim_C4 :
    (∀ (raw : List Char) (only_open : Bool) (row : Row),
        parseLine only_open raw = some row →
          (∃ pre tws, rstripNewlines raw = pre ++ (row.Version.data ++ tws) ∧
              tws.all pyIsSpace = true) ∧
          (row.Version.data ≠ [] →
            pyIsSpace (row.Version.data.getLastD ' ') = false)) ∧
    (∀ (raw : List Char) (only_open : Bool) (row : Row) (m : PortMatch),
        parseLine only_open raw = some row →
        PORT_LINE_RE_match (rstripNewlines raw) = some m →
        m.version = none → row.Version = "") ∧
    parse_nmap_lines ["22/tcp open ssh".data] true =
      [{ Enum := "N", Port := "22", Protocol := "tcp", State := "open",
         Service := "ssh", Version := "", Hypothesis := "", Notes := "",
         Loot := "" }] ∧
    parse_nmap_lines ["3306/tcp open mysql MySQL 5.5 or later".data] true =
      [{ Enum := "N", Port := "3306", Protocol := "tcp", State := "open",
         Service := "mysql", Version := "MySQL 5.5 or later",
         Hypothesis := "", Notes := "", Loot := "" }] := by
  refine ⟨?_, ?_, by decide, by decide⟩
  · intro raw flag row h
    obtain ⟨m, hm, hrow, -⟩ := parseLine_some_elim h
    subst hrow
    have hvdata : (mkRow m).Version.data = m.version.getD [] := rfl
    cases hv : m.version with
    | none =>
      constructor
      · refine ⟨rstripNewlines raw, [], ?_, rfl⟩
        rw [hvdata, hv]
        simp
      · intro hne
        rw [hvdata, hv] at hne
        exact absurd rfl hne
    | some v =>
      obtain ⟨ws0, ws1, ws2, r8, hline, -, -, -, -, -, -, -, -, -, -, -, -,
        htail⟩ := PORT_LINE_RE_match_some_decomp hm
      rw [hv] at htail
      obtain ⟨ws, tws, hr8, -, -, htws, -, hlast⟩ :=
        matchTail_eq_some_some htail
      constructor
      · refine ⟨m.port ++ '/' :: (ws0 ++ (m.proto ++ (ws1 ++ (m.state ++
          (ws2 ++ (m.service ++ ws)))))), tws, ?_, htws⟩
        rw [hline, hr8, hvdata, hv]
        simp
      · intro _
        rw [hvdata, hv]
        exact hlast
  · intro raw flag row m h hm hvnone
    obtain ⟨m', hm', hrow, -⟩ := parseLine_some_elim h
    rw [hm'] at hm
    have hmm : m' = m := Option.some.injEq .. ▸ hm
    subst hmm
    subst hrow
    show ((m'.version.getD []).asString) = ""
    rw [hvnone]
    rfl

/-- The record the core emits for the line "22/tcp open ssh". -/
def rowSsh : Row :=
  { Enum := "N", Port := "22", Protocol := "tcp", State := "open",
    Service := "ssh", Version := "", Hypothesis := "", Notes := "",
    Loot := "" }

/-- Witness for C4 at the concrete line "22/tcp open ssh". -/
theorem claim_C4_witness :
    (∃ pre tws, rstripNewlines "22/tcp open ssh".data =
        pre ++ (rowSsh.Version.data ++ tws) ∧ tws.all pyIsSpace = true) ∧
    (rowSsh.Version.data ≠ [] →
      pyIsSpace (rowSsh.Version.data.getLastD ' ') = false) :=
  claim_C4.1 "22/tcp open ssh".data true rowSsh (by decide)

/-- C7: records appear in the output in the order of their source lines,
with no deduplication, sorting or merging: parsing distributes over
concatenation of inputs, and n repetitions of one port line produce n
copies of its record. -/
theorem claim_C7 :
    (∀ (l1 l2 : List (List Char)) (only_open : Bool),
        parse_nmap_lines (l1 ++ l2) only_open =
          parse_nmap_lines l1 only_open ++ parse_nmap_lines l2 only_open) ∧
    (∀ (raw : List Char) (only_open : Bool) (row : Row) (n : Nat),
        parseLine only_open raw = some row →
        parse_nmap_lines (List.replicate n raw) only_open =
          List.replicate n row) := by
  constructor
  · intro l1 l2 flag
    simp [parse_nmap_lines]
  · intro raw flag row n hrow
    induction n with
    | zero => rfl
    | succ k ih =>
      rw [List.replicate_succ, List.replicate_succ]
      simp only [parse_nmap_lines] at ih ⊢
      rw [List.filterMap_cons_some hrow, ih]

/-- Witness for C7: two copies of "80/tcp open http" produce two copies of
its record. -/
theorem claim_C7_witness :
    parse_nmap_lines (List.replicate 2 "80/tcp open http".data) true =
      List.replicate 2
        ({ Enum := "N", Port := "80", Protocol := "tcp", State := "open",
           Service := "http", Version := "", Hypothesis := "", Notes := "",
           Loot := "" } : Row) :=
  claim_C7.2 "80/tcp open http".data true
    { Enum := "N", Port := "80", Protocol := "tcp", State := "open",
      Service := "http", Version := "", Hypothesis := "", Notes := "",
      Loot := "" } 2 (by decide)

/-- C8: a line holding a valid port, protocol and state token but no further
non-whitespace token does not match the pattern and yields no record, for
either flag value. -/
theorem claim_C8 :
    ∀ (digits ws0 proto ws1 state ws2 : List Char) (a b c : Char)
      (only_open : Bool),
      digits ≠ [] → digits.all pyIsDigit = true →
      ws0.all pyIsSpace = true →
      proto = [a, b, c] → protoOK a b c = true →
      ws1 ≠ [] → ws1.all pyIsSpace = true →
      state ≠ [] → state.all (fun ch => !pyIsSpace ch) = true →
      ws2.all pyIsSpace = true →
      PORT_LINE_RE_match
        (digits ++ '/' :: (ws0 ++ (proto ++ (ws1 ++ (state ++ ws2))))) =
          none ∧
      parse_nmap_lines
        [digits ++ '/' :: (ws0 ++ (proto ++ (ws1 ++ (state ++ ws2))))]
        only_open = [] := by
  intro digits ws0 proto ws1 state ws2 a b c flag hdne hda hw0 hp hpOK
    hw1ne hw1a hsne hsa hw2
  refine ⟨PORT_LINE_RE_match_no_service hdne hda hw0 hp hpOK hw1a hsne hsa
    hw2, ?_⟩
  have hstrip : rstripNewlines
      (digits ++ '/' :: (ws0 ++ (proto ++ (ws1 ++ (state ++ ws2))))) =
      digits ++ '/' ::
        (ws0 ++ (proto ++ (ws1 ++ (state ++ rstripNewlines ws2)))) := by
    have hre : digits ++ '/' :: (ws0 ++ (proto ++ (ws1 ++ (state ++ ws2))))
        = (digits ++ '/' :: (ws0 ++ (proto ++ (ws1 ++ state)))) ++ ws2 := by
      simp
    have hlast : (digits ++ '/' ::
        (ws0 ++ (proto ++ (ws1 ++ state)))).getLast? ≠ some '\n' := by
      have hs2 : (digits ++ '/' ::
          (ws0 ++ (proto ++ (ws1 ++ state)))).getLast? = state.getLast? := by
        rw [show digits ++ '/' :: (ws0 ++ (proto ++ (ws1 ++ state))) =
          (digits ++ '/' :: (ws0 ++ (proto ++ ws1))) ++ state by simp]
        exact List.getLast?_append_of_ne_nil _ hsne
      rw [hs2, List.getLast?_eq_getLast state hsne]
      intro hcon
      have hmem := List.getLast_mem hsne
      rw [List.all_eq_true] at hsa
      have hns := hsa _ hmem
      rw [Option.some.inj hcon] at hns
      exact absurd hns (by decide)
    rw [hre, rstripNewlines_append hlast]
    simp
  have hnone : parseLine flag
      (digits ++ '/' :: (ws0 ++ (proto ++ (ws1 ++ (state ++ ws2))))) =
      none := by
    unfold parseLine
    split
    case _ h0 =>
      rfl
    case _ ch rest hcr =>
      rw [hstrip] at hcr
      obtain ⟨d, ds, hds⟩ := List.exists_cons_of_ne_nil hdne
      rw [hds, List.cons_append] at hcr
      have hchd : ch = d := (List.cons.injEq .. ▸ hcr.symm).1
      have hrest : rest = ds ++ '/' ::
          (ws0 ++ (proto ++ (ws1 ++ (state ++ rstripNewlines ws2)))) :=
        (List.cons.injEq .. ▸ hcr.symm).2
      have hdd : pyIsDigit d = true := by
        rw [List.all_eq_true] at hda
        have := hda d (by rw [hds]; exact List.mem_cons_self ..)
        simpa using this
      rw [if_neg (by simp [hchd, pyIsSpace_false_of_digit hdd])]
      have hm : PORT_LINE_RE_match (ch :: rest) = none := by
        rw [hchd, hrest, ← List.cons_append]
        rw [← hds]
        exact PORT_LINE_RE_match_no_service hdne hda hw0 hp hpOK hw1a hsne
          hsa (all_rstripNewlines hw2)
      rw [hm]
  simp [parse_nmap_lines, hnone]

/-- Witness for C8: the line "80/tcp open" (valid port, protocol and state
but no service token) matches nothing and yields no record. -/
theorem claim_C8_witness :
    PORT_LINE_RE_match (['8', '0'] ++ '/' :: (([] : List Char) ++
      (['t', 'c', 'p'] ++ ([' '] ++ (['o', 'p', 'e', 'n'] ++
        ([] : List Char)))))) = none ∧
    parse_nmap_lines [['8', '0'] ++ '/' :: (([] : List Char) ++
      (['t', 'c', 'p'] ++ ([' '] ++ (['o', 'p', 'e', 'n'] ++
        ([] : List Char)))))] true = [] :=
  claim_C8 ['8', '0'] [] ['t', 'c', 'p'] [' '] ['o', 'p', 'e', 'n'] []
    't' 'c' 'p' true (by decide) (by decide) rfl rfl (by decide)
    (by decide) (by decide) (by decide) (by decide) rfl

/-- C9: the protocol field of every emitted record is the lowercase "tcp" or
"udp" whatever the case of the input token, while the state and service
fields reproduce contiguous spans of the input line verbatim; on
"80/TcP OpEn HtTp" the record carries protocol "tcp", state "OpEn" and
service "HtTp". -/
theorem claim_C9 :
    (∀ (raw : List Char) (only_open : Bool) (row : Row),
        parseLine only_open raw = some row →
          (row.Protocol = "tcp" ∨ row.Protocol = "udp") ∧
          (∃ pre suf, rstripNewlines raw = pre ++ (row.State.data ++ suf)) ∧
          (∃ pre suf, rstripNewlines raw =
            pre ++ (row.Service.data ++ suf))) ∧
    parse_nmap_lines ["80/TcP OpEn HtTp".data] true =
      [{ Enum := "N", Port := "80", Protocol := "tcp", State := "OpEn",
         Service := "HtTp", Version := "", Hypothesis := "", Notes := "",
         Loot := "" }] := by
  refine ⟨?_, by decide⟩
  intro raw flag row h
  obtain ⟨m, hm, hrow, -⟩ := parseLine_some_elim h
  subst hrow
  obtain ⟨ws0, ws1, ws2, r8, hline, -, -, -, hpr, -, -, -, -, -, -, -, -,
    -⟩ := PORT_LINE_RE_match_some_decomp hm
  obtain ⟨a, b, c, hpshape, hpOK⟩ := hpr
  refine ⟨?_, ?_, ?_⟩
  · show ((m.proto.map charLower).asString = "tcp" ∨
      (m.proto.map charLower).asString = "udp")
    rw [hpshape]
    simp only [protoOK, Bool.or_eq_true, Bool.and_eq_true,
      beq_iff_eq] at hpOK
    rcases hpOK with ⟨⟨ha | ha, hb | hb⟩, hc | hc⟩ |
      ⟨⟨ha | ha, hb | hb⟩, hc | hc⟩ <;>
      subst ha <;> subst hb <;> subst hc <;> decide
  · refine ⟨m.port ++ '/' :: (ws0 ++ (m.proto ++ ws1)),
      ws2 ++ (m.service ++ r8), ?_⟩
    rw [hline]
    simp [mkRow, data_asString]
  · refine ⟨m.port ++ '/' :: (ws0 ++ (m.proto ++ (ws1 ++ (m.state ++
      ws2)))), r8, ?_⟩
    rw [hline]
    simp [mkRow, data_asString]

/-- Witness for C9 at the concrete line "80/TcP OpEn HtTp". -/
theorem claim_C9_witness :
    (({ Enum := "N", Port := "80", Protocol := "tcp", State := "OpEn",
        Service := "HtTp", Version := "", Hypothesis := "", Notes := "",
        Loot := "" } : Row).Protocol = "tcp" ∨
     ({ Enum := "N", Port := "80", Protocol := "tcp", State := "OpEn",
        Service := "HtTp", Version := "", Hypothesis := "", Notes := "",
        Loot := "" } : Row).Protocol = "udp") ∧
    (∃ pre suf, rstripNewlines "80/TcP OpEn HtTp".data =
      pre ++ (({ Enum := "N", Port := "80", Protocol := "tcp",
                 State := "OpEn", Service := "HtTp", Version := "",
                 Hypothesis := "", Notes := "",
                 Loot := "" } : Row).State.data ++ suf)) ∧
    (∃ pre suf, rstripNewlines "80/TcP OpEn HtTp".data =
      pre ++ (({ Enum := "N", Port := "80", Protocol := "tcp",
                 State := "OpEn", Service := "HtTp", Version := "",
                 Hypothesis := "", Notes := "",
                 Loot := "" } : Row).Service.data ++ suf)) :=
  claim_C9.1 "80/TcP OpEn HtTp".data true
    { Enum := "N", Port := "80", Protocol := "tcp", State := "OpEn",
      Service := "HtTp", Version := "", Hypothesis := "", Notes := "",
      Loot := "" } (by decide)

end Nmap2csv
